/-
  Verification of the SENTINEL outbreak-scoring backend.

  Shallow embedding of the core components of Backend/app:
  - improve/update.py   (fusion-weight and decision-threshold update rule)
  - agents/ingest.py    (deterministic local fallback of the ingest stage)
  - rag/embed.py        (deterministic local embedding)
  - rag/index.py        (cosine similarity, in-memory vector index)
  - rag/rerank.py       (rerank fallback chain)
  - rag/retrieve.py     (retrieval with self/future exclusion and field stripping)
  - dispatch/base.py    (dispatch gating)
  - service.py          (run loop state machine)
  - agents/base.py      (retry wrapper around the external scoring capability)

  Machine floats are modelled by exact rationals, and the final L2
  normalisation steps, which use a square root, by real numbers.
-/
import Mathlib

namespace Sentinel

/-! ## Fusion state and its update rule (app/improve/update.py, app/models.py) -/

/-- FusionState from app/models.py: three fusion weights and
the decision threshold. Floats are modelled as rationals. -/
structure FusionState where
  w_genomics : ℚ
  w_epi : ℚ
  w_geo : ℚ
  threshold : ℚ
deriving DecidableEq

/-- default_fusion_state from app/improve/update.py. -/
def default_fusion_state : FusionState :=
  ⟨4/10, 4/10, 2/10, 7/10⟩

/-- The component_scores dict passed to update_fusion_state. The three keys
read by the code (with default 0.0) are modelled as three fields; the caller
in service.py always provides exactly these keys. -/
structure ComponentScores where
  genomics : ℚ
  epi : ℚ
  geo : ℚ
deriving DecidableEq

/-- predicted_positive as computed on line 43 of app/improve/update.py. -/
def predicted_positive (current : FusionState)
    (predicted_severity predicted_confidence_pct : ℚ) : Prop :=
  predicted_severity ≥ current.threshold * 10 ∧ predicted_confidence_pct ≥ 60

instance (current : FusionState) (ps pc : ℚ) :
    Decidable (predicted_positive current ps pc) :=
  inferInstanceAs (Decidable (_ ∧ _))

/-- update_fusion_state from app/improve/update.py.
The learning_rate keyword argument is an explicit parameter here (its only
caller, service.py, leaves it at the default 0.08). -/
def update_fusion_state (current : FusionState) (component_scores : ComponentScores)
    (predicted_severity predicted_confidence_pct : ℚ)
    (ground_truth_true : Bool) (true_severity : ℚ) (learning_rate : ℚ) : FusionState :=
  let weighted_pred :=
    current.w_genomics * component_scores.genomics
      + current.w_epi * component_scores.epi
      + current.w_geo * component_scores.geo
  let error := (true_severity - weighted_pred) / 10
  let upd : ℚ → ℚ → ℚ := fun weight score =>
    min (9/10) (max (5/100) (weight + learning_rate * error * ((score - weighted_pred) / 10)))
  let updG := upd current.w_genomics component_scores.genomics
  let updE := upd current.w_epi component_scores.epi
  let updO := upd current.w_geo component_scores.geo
  let total0 := updG + updE + updO
  let total := if total0 = 0 then 1 else total0
  let pp := predicted_positive current predicted_severity predicted_confidence_pct
  let t1 := if pp ∧ ground_truth_true = false then current.threshold + 1/100 else current.threshold
  let t2 := if ¬ pp ∧ ground_truth_true = true ∧ true_severity ≥ 7 then t1 - 1/100 else t1
  ⟨updG / total, updE / total, updO / total, min (85/100) (max (4/10) t2)⟩

/-- States reachable from default_fusion_state by update_fusion_state calls
with arbitrary component scores, predictions and ground truth, at the
learning rate 0.08 used by the only caller (service.py). -/
inductive ReachableFusionState : FusionState → Prop where
  | base : ReachableFusionState default_fusion_state
  | step (s : FusionState) (cs : ComponentScores) (ps pc : ℚ) (gt : Bool) (ts : ℚ) :
      ReachableFusionState s →
      ReachableFusionState (update_fusion_state s cs ps pc gt ts (8/100))

/-- Clamped weights after one update always lie in the interval from
0.05 / 1.85 = 1/37 to 0.9 once renormalised, and sum to exactly 1. -/
theorem update_weights_sum_and_bounds (s : FusionState) (cs : ComponentScores)
    (ps pc : ℚ) (gt : Bool) (ts lr : ℚ) :
    let u := update_fusion_state s cs ps pc gt ts lr
    u.w_genomics + u.w_epi + u.w_geo = 1 ∧
      (1/37 ≤ u.w_genomics ∧ u.w_genomics ≤ 9/10) ∧
      (1/37 ≤ u.w_epi ∧ u.w_epi ≤ 9/10) ∧
      (1/37 ≤ u.w_geo ∧ u.w_geo ≤ 9/10) := by
  intro u
  show (_ : ℚ) + _ + _ = 1 ∧ _
  unfold u
  unfold update_fusion_state
  set wp := s.w_genomics * cs.genomics + s.w_epi * cs.epi + s.w_geo * cs.geo with hwp
  simp only
  set a := min (9/10 : ℚ) (max (5/100) (s.w_genomics + lr * ((ts - wp) / 10) * ((cs.genomics - wp) / 10))) with ha
  set b := min (9/10 : ℚ) (max (5/100) (s.w_epi + lr * ((ts - wp) / 10) * ((cs.epi - wp) / 10))) with hb
  set c := min (9/10 : ℚ) (max (5/100) (s.w_geo + lr * ((ts - wp) / 10) * ((cs.geo - wp) / 10))) with hc
  have haL : (5/100 : ℚ) ≤ a := le_min (by norm_num) (le_max_left _ _)
  have hbL : (5/100 : ℚ) ≤ b := le_min (by norm_num) (le_max_left _ _)
  have hcL : (5/100 : ℚ) ≤ c := le_min (by norm_num) (le_max_left _ _)
  have haU : a ≤ 9/10 := min_le_left _ _
  have hbU : b ≤ 9/10 := min_le_left _ _
  have hcU : c ≤ 9/10 := min_le_left _ _
  have htot : a + b + c ≠ 0 := by positivity
  rw [if_neg htot]
  have htpos : (0:ℚ) < a + b + c := by positivity
  refine ⟨by field_simp, ⟨?_, ?_⟩, ⟨?_, ?_⟩, ⟨?_, ?_⟩⟩
  · rw [le_div_iff₀ htpos]; linarith
  · rw [div_le_iff₀ htpos]; linarith
  · rw [le_div_iff₀ htpos]; linarith
  · rw [div_le_iff₀ htpos]; linarith
  · rw [le_div_iff₀ htpos]; linarith
  · rw [div_le_iff₀ htpos]; linarith

/-- C2 (amended invariant): every reachable FusionState has weights summing
exactly to 1 with each weight in the closed interval from 1/37 to 9/10. -/
theorem reachable_fusion_weights_invariant (s : FusionState)
    (h : ReachableFusionState s) :
    s.w_genomics + s.w_epi + s.w_geo = 1 ∧
      (1/37 ≤ s.w_genomics ∧ s.w_genomics ≤ 9/10) ∧
      (1/37 ≤ s.w_epi ∧ s.w_epi ≤ 9/10) ∧
      (1/37 ≤ s.w_geo ∧ s.w_geo ≤ 9/10) := by
  induction h with
  | base =>
    refine ⟨by norm_num [default_fusion_state], ?_, ?_, ?_⟩ <;> norm_num [default_fusion_state]
  | step s cs ps pc gt ts _ _ => exact update_weights_sum_and_bounds s cs ps pc gt ts (8/100)

/-- Witness for the reachable-weights invariant at the default state. -/
theorem reachable_fusion_weights_invariant_witness :
    default_fusion_state.w_genomics + default_fusion_state.w_epi
        + default_fusion_state.w_geo = 1 ∧
      (1/37 ≤ default_fusion_state.w_genomics ∧ default_fusion_state.w_genomics ≤ 9/10) ∧
      (1/37 ≤ default_fusion_state.w_epi ∧ default_fusion_state.w_epi ≤ 9/10) ∧
      (1/37 ≤ default_fusion_state.w_geo ∧ default_fusion_state.w_geo ≤ 9/10) :=
  reachable_fusion_weights_invariant default_fusion_state ReachableFusionState.base

/-- C2 (counterexample): one update from the default state, with component
scores 100, 100, -100 and true severity 1000, clamps the raw weights at
(0.9, 0.9, 0.05); after renormalisation w_geo = 1/37 < 0.05, so the claimed
lower bound 0.05 on each reachable weight fails. -/
theorem fusion_weight_bound_counterexample :
    ReachableFusionState
        (update_fusion_state default_fusion_state ⟨100, 100, -100⟩ 0 0 false 1000 (8/100)) ∧
      (update_fusion_state default_fusion_state ⟨100, 100, -100⟩ 0 0 false 1000 (8/100)).w_geo
        = 1/37 ∧
      (update_fusion_state default_fusion_state ⟨100, 100, -100⟩ 0 0 false 1000 (8/100)).w_geo
        < 5/100 := by
  refine ⟨ReachableFusionState.step _ _ _ _ _ _ ReachableFusionState.base, ?_, ?_⟩ <;>
    norm_num [update_fusion_state, default_fusion_state, predicted_positive]

/-- The threshold returned by update_fusion_state equals the old threshold
adjusted by the (mutually exclusive) false-positive and missed-severe rules,
then clamped to the interval from 0.4 to 0.85. -/
theorem update_threshold_eq (current : FusionState) (cs : ComponentScores)
    (ps pc : ℚ) (gt : Bool) (ts lr : ℚ) :
    (update_fusion_state current cs ps pc gt ts lr).threshold =
      min (85/100) (max (4/10)
        (if predicted_positive current ps pc ∧ gt = false then current.threshold + 1/100
         else if ¬ predicted_positive current ps pc ∧ gt = true ∧ ts ≥ 7 then
           current.threshold - 1/100
         else current.threshold)) := by
  unfold update_fusion_state
  simp only
  by_cases h1 : predicted_positive current ps pc ∧ gt = false
  · have h2 : ¬ (¬ predicted_positive current ps pc ∧ gt = true ∧ ts ≥ 7) := by
      rintro ⟨hnpp, -⟩; exact hnpp h1.1
    simp only [if_pos h1, if_neg h2]
  · by_cases h2 : ¬ predicted_positive current ps pc ∧ gt = true ∧ ts ≥ 7
    · simp only [if_neg h1, if_pos h2]
    · simp only [if_neg h1, if_neg h2]

/-- C4 (amended): on a false positive the threshold moves up by exactly 0.01
unless capped at 0.85; on a missed severe true positive it moves down by
exactly 0.01 unless floored at 0.4; otherwise it is unchanged (for
thresholds within the documented bounds); the result is always within
0.4 and 0.85; and in the quoted scenario (component scores 7.5, 7.0, 7.0,
predicted severity 8.0, confidence 80, ground truth negative) the new
threshold is strictly greater than the old one for any old threshold at
most 0.8 (in particular from the default state). -/
theorem threshold_update_rule (current : FusionState) (cs : ComponentScores)
    (ps pc : ℚ) (gt : Bool) (ts : ℚ) :
    (4/10 ≤ current.threshold → current.threshold ≤ 85/100 →
      ((predicted_positive current ps pc ∧ gt = false →
          (update_fusion_state current cs ps pc gt ts (8/100)).threshold
            = min (85/100) (current.threshold + 1/100)) ∧
        (¬ predicted_positive current ps pc ∧ gt = true ∧ ts ≥ 7 →
          (update_fusion_state current cs ps pc gt ts (8/100)).threshold
            = max (4/10) (current.threshold - 1/100)) ∧
        (¬ (predicted_positive current ps pc ∧ gt = false) →
          ¬ (¬ predicted_positive current ps pc ∧ gt = true ∧ ts ≥ 7) →
          (update_fusion_state current cs ps pc gt ts (8/100)).threshold
            = current.threshold))) ∧
      (4/10 ≤ (update_fusion_state current cs ps pc gt ts (8/100)).threshold ∧
        (update_fusion_state current cs ps pc gt ts (8/100)).threshold ≤ 85/100) ∧
      (current.threshold ≤ 8/10 →
        (update_fusion_state current ⟨15/2, 7, 7⟩ 8 80 false ts (8/100)).threshold
          > current.threshold) := by
  refine ⟨fun hlo hhi => ⟨?_, ?_, ?_⟩, ⟨?_, ?_⟩, ?_⟩
  · intro hfp
    rw [update_threshold_eq, if_pos hfp]
    have : max (4/10 : ℚ) (current.threshold + 1/100) = current.threshold + 1/100 :=
      max_eq_right (by linarith)
    rw [this]
  · intro hmiss
    have hfp : ¬ (predicted_positive current ps pc ∧ gt = false) := by
      rintro ⟨hpp, -⟩; exact hmiss.1 hpp
    rw [update_threshold_eq, if_neg hfp, if_pos hmiss]
    have h1 : max (4/10 : ℚ) (current.threshold - 1/100) ≤ 84/100 := by
      apply max_le <;> linarith
    exact min_eq_right (by linarith)
  · intro hfp hmiss
    rw [update_threshold_eq, if_neg hfp, if_neg hmiss]
    rw [max_eq_right hlo]
    exact min_eq_right hhi
  · rw [update_threshold_eq]
    exact le_min (by norm_num) (le_max_left _ _)
  · rw [update_threshold_eq]; exact min_le_left _ _
  · intro hle
    have hpp : predicted_positive current 8 80 := by
      constructor <;> [linarith; norm_num]
    rw [update_threshold_eq, if_pos ⟨hpp, rfl⟩]
    have h1 : current.threshold < max (4/10) (current.threshold + 1/100) := by
      rcases le_total (4/10 : ℚ) (current.threshold + 1/100) with h | h
      · rw [max_eq_right h]; linarith
      · rw [max_eq_left h]; linarith
    have h2 : current.threshold < (85/100 : ℚ) := by linarith
    exact lt_min h2 h1

/-- Witness for the amended threshold rule, at the default state with the
quoted scenario inputs: the threshold moves from 0.7 to exactly 0.71. -/
theorem threshold_update_rule_witness :
    (update_fusion_state default_fusion_state ⟨15/2, 7, 7⟩ 8 80 false 2 (8/100)).threshold
      = min (85/100) (default_fusion_state.threshold + 1/100) ∧
    (update_fusion_state default_fusion_state ⟨15/2, 7, 7⟩ 8 80 false 2 (8/100)).threshold
      > default_fusion_state.threshold :=
  ⟨((threshold_update_rule default_fusion_state ⟨15/2, 7, 7⟩ 8 80 false 2).1
      (by norm_num [default_fusion_state]) (by norm_num [default_fusion_state])).1
      ⟨by constructor <;> norm_num [predicted_positive, default_fusion_state], rfl⟩,
    (threshold_update_rule default_fusion_state ⟨15/2, 7, 7⟩ 8 80 false 2).2.2
      (by norm_num [default_fusion_state])⟩

/-- One false-positive update with all component scores zero: the weights are
unchanged and the threshold is bumped by 0.01 (clamped at 0.85). -/
def bumpThreshold (s : FusionState) : FusionState :=
  update_fusion_state s ⟨0, 0, 0⟩ 10 100 false 0 (8/100)

theorem bump_reachable (n : ℕ) :
    ReachableFusionState (bumpThreshold^[n] default_fusion_state) := by
  induction n with
  | zero => exact ReachableFusionState.base
  | succ n ih =>
    rw [Function.iterate_succ_apply']
    exact ReachableFusionState.step _ _ _ _ _ _ ih

theorem bump_eval (w1 w2 w3 t : ℚ) (h1 : 5/100 ≤ w1) (h1' : w1 ≤ 9/10)
    (h2 : 5/100 ≤ w2) (h2' : w2 ≤ 9/10) (h3 : 5/100 ≤ w3) (h3' : w3 ≤ 9/10)
    (hsum : w1 + w2 + w3 = 1) (ht : t ≤ 1) :
    bumpThreshold ⟨w1, w2, w3, t⟩ =
      ⟨w1, w2, w3, min (85/100) (max (4/10) (t + 1/100))⟩ := by
  have hpp : predicted_positive ⟨w1, w2, w3, t⟩ (10 : ℚ) (100 : ℚ) := by
    constructor
    · show (10 : ℚ) ≥ t * 10; nlinarith
    · norm_num
  unfold bumpThreshold update_fusion_state
  have hc1 : predicted_positive ⟨w1, w2, w3, t⟩ (10 : ℚ) (100 : ℚ) ∧ false = false :=
    ⟨hpp, rfl⟩
  have hc2 : ¬ (¬ predicted_positive ⟨w1, w2, w3, t⟩ (10 : ℚ) (100 : ℚ)
      ∧ false = true ∧ (0:ℚ) ≥ 7) := by
    rintro ⟨hnpp, -, -⟩; exact hnpp hpp
  simp only [if_pos hc1, if_neg hc2]
  have e1 : w1 + 8/100 * (((0:ℚ) - (w1 * 0 + w2 * 0 + w3 * 0)) / 10)
      * (((0:ℚ) - (w1 * 0 + w2 * 0 + w3 * 0)) / 10) = w1 := by ring
  have clampEq : ∀ w : ℚ, 5/100 ≤ w → w ≤ 9/10 →
      min (9/10) (max (5/100) (w + 8/100 * (((0:ℚ) - (w1 * 0 + w2 * 0 + w3 * 0)) / 10)
        * (((0:ℚ) - (w1 * 0 + w2 * 0 + w3 * 0)) / 10))) = w := by
    intro w hw hw'
    have : w + 8/100 * (((0:ℚ) - (w1 * 0 + w2 * 0 + w3 * 0)) / 10)
        * (((0:ℚ) - (w1 * 0 + w2 * 0 + w3 * 0)) / 10) = w := by ring
    rw [this, max_eq_right hw, min_eq_right hw']
  rw [clampEq w1 h1 h1', clampEq w2 h2 h2', clampEq w3 h3 h3', hsum]
  norm_num
  rw [if_pos hpp]

theorem bump_iterate (n : ℕ) (hn : n ≤ 15) :
    bumpThreshold^[n] default_fusion_state =
      ⟨4/10, 4/10, 2/10, 7/10 + (n : ℚ)/100⟩ := by
  induction n with
  | zero => norm_num [default_fusion_state]
  | succ n ih =>
    have hn' : n ≤ 15 := Nat.le_of_succ_le hn
    have hcast : ((n : ℚ)) ≤ 14 := by
      have : n ≤ 14 := Nat.lt_succ_iff.mp hn
      exact_mod_cast this
    rw [Function.iterate_succ_apply', ih hn',
      bump_eval _ _ _ _ (by norm_num) (by norm_num) (by norm_num) (by norm_num)
        (by norm_num) (by norm_num) (by norm_num) (by linarith)]
    have hmax : max (4/10 : ℚ) (7/10 + (n : ℚ)/100 + 1/100) = 7/10 + (n : ℚ)/100 + 1/100 := by
      apply max_eq_right
      have : (0:ℚ) ≤ (n : ℚ) := by positivity
      linarith
    have hmin : min (85/100 : ℚ) (7/10 + (n : ℚ)/100 + 1/100) = 7/10 + (n : ℚ)/100 + 1/100 := by
      apply min_eq_right; linarith
    rw [hmax, hmin]
    congr 1
    push_cast
    ring

/-- C4 (counterexample): after fifteen consecutive false positives the
threshold sits at the cap 0.85 (a reachable state); a sixteenth false
positive leaves it at 0.85, not old + 0.01, so the unconditional
"changes by exactly +0.01 on a false positive" part of the claim fails. -/
theorem threshold_fp_increment_counterexample :
    ReachableFusionState (bumpThreshold^[15] default_fusion_state) ∧
    (bumpThreshold^[15] default_fusion_state).threshold = 85/100 ∧
    predicted_positive (bumpThreshold^[15] default_fusion_state) 10 100 ∧
    (bumpThreshold (bumpThreshold^[15] default_fusion_state)).threshold = 85/100 ∧
    (bumpThreshold (bumpThreshold^[15] default_fusion_state)).threshold
      ≠ (bumpThreshold^[15] default_fusion_state).threshold + 1/100 := by
  have h15 : bumpThreshold^[15] default_fusion_state =
      ⟨4/10, 4/10, 2/10, 85/100⟩ := by
    rw [bump_iterate 15 (by norm_num)]; norm_num
  have hstep : bumpThreshold ⟨4/10, 4/10, 2/10, 85/100⟩ =
      ⟨4/10, 4/10, 2/10, 85/100⟩ := by
    rw [bump_eval _ _ _ _ (by norm_num) (by norm_num) (by norm_num) (by norm_num)
      (by norm_num) (by norm_num) (by norm_num) (by norm_num)]
    norm_num
  refine ⟨bump_reachable 15, ?_, ?_, ?_, ?_⟩
  · rw [h15]
  · rw [h15]; exact ⟨by norm_num, by norm_num⟩
  · rw [h15, hstep]
  · rw [h15, hstep]; norm_num

/-! ## Ingest agent local fallback (app/agents/ingest.py) -/

/-- clamp from app/agents/ingest.py: max(low, min(high, value)). -/
def clamp (value low high : ℚ) : ℚ := max low (min high value)

/-- Python round(x, 3), modelled with Mathlib round (round-half-up).
Python uses round-half-even on binary floats; the two agree except at
exact 0.0005 ties, which do not affect any property proved here. -/
def round3 (q : ℚ) : ℚ := ((round (q * 1000) : ℤ) : ℚ) / 1000

/-- The fields of the case payload read by IngestAgent.local_fallback,
grouped as in the raw case dict (genomic / epi_osint / geo). Missing
numeric fields default to the values used by dict.get in the source. -/
structure IngestCase where
  mutation_novelty : ℚ
  lineage_deviation : ℚ
  recombination_flag : Bool
  news_snippets : List String
  source_types : List String
  anomaly_score : ℚ
  reliability_hint : ℚ
  travel_hub_score : ℚ
  population_density_score : ℚ
  border_connectivity : ℚ
deriving DecidableEq

/-- The numeric outputs of IngestAgent.local_fallback. The evidence
strings and the merged normalized_case dict replicate these numbers and
carry no further numeric content. -/
structure IngestFallbackResult where
  credibility_score : ℚ
  score : ℚ
  confidence : ℚ
  derived_geo_pressure : ℚ
  derived_genomic_pressure : ℚ
deriving DecidableEq

/-- IngestAgent.local_fallback from app/agents/ingest.py. -/
def ingest_local_fallback (case : IngestCase) : IngestFallbackResult :=
  let source_diversity := clamp ((case.source_types.dedup.length : ℚ) / 4) 0 1
  let news_volume := clamp ((case.news_snippets.length : ℚ) / 5) 0 1
  let reliability := case.reliability_hint
  let credibility :=
    clamp (55/100 * reliability + 25/100 * source_diversity + 20/100 * news_volume) 0 1
  let genomic_pressure :=
    case.mutation_novelty * 5/10 + case.lineage_deviation * 35/100
      + (if case.recombination_flag then 15/100 else 0)
  let geo_pressure :=
    (case.travel_hub_score + case.population_density_score + case.border_connectivity) / 3
  let risk_signal :=
    4/10 * genomic_pressure + 35/100 * case.anomaly_score + 25/100 * geo_pressure
  { credibility_score := round3 credibility
    score := round3 (clamp risk_signal 0 1 * 10)
    confidence := round3 (clamp (5/10 + 45/100 * credibility) 0 1)
    derived_geo_pressure := round3 geo_pressure
    derived_genomic_pressure := round3 genomic_pressure }

/-- The case payload of the quoted ingest scenario. news_snippets is not
listed in the scenario payload, so dict.get yields the empty list. -/
def ingestScenarioCase : IngestCase :=
  ⟨2/5, 1/2, false, [], ["promed", "who_bulletin"], 11/20, 7/10, 3/5, 3/4, 2/5⟩

/-- C7 (counterexample): on the quoted payload the fallback credibility is
0.51, not approximately 0.67 (it is more than 0.1 away). -/
theorem ingest_fallback_credibility_counterexample :
    (ingest_local_fallback ingestScenarioCase).credibility_score = 51/100 ∧
    ¬ |(ingest_local_fallback ingestScenarioCase).credibility_score - 67/100| ≤ 1/10 := by
  have hsd : (["promed", "who_bulletin"] : List String).dedup.length = 2 := by decide
  constructor <;>
    norm_num [ingest_local_fallback, ingestScenarioCase, clamp, round3, round_eq, hsd, abs]

/-- C7 (amended): on the quoted payload the fallback returns credibility
exactly 0.51 (spec formula and code agree; the quoted 0.67 does not),
score 4.883 within the range 0 to 10, confidence within 0 to 1, and the
computation is a pure function of the payload, hence reproducible. -/
theorem ingest_fallback_scenario_values :
    (ingest_local_fallback ingestScenarioCase).credibility_score = 51/100 ∧
    (ingest_local_fallback ingestScenarioCase).score = 4883/1000 ∧
    0 ≤ (ingest_local_fallback ingestScenarioCase).score ∧
    (ingest_local_fallback ingestScenarioCase).score ≤ 10 ∧
    0 ≤ (ingest_local_fallback ingestScenarioCase).confidence ∧
    (ingest_local_fallback ingestScenarioCase).confidence ≤ 1 ∧
    ingest_local_fallback ingestScenarioCase = ingest_local_fallback ingestScenarioCase := by
  have hsd : (["promed", "who_bulletin"] : List String).dedup.length = 2 := by decide
  refine ⟨?_, ?_, ?_, ?_, ?_, ?_, rfl⟩ <;>
    norm_num [ingest_local_fallback, ingestScenarioCase, clamp, round3, round_eq, hsd]

/-! ## Deterministic local embedding (app/rag/embed.py) -/

/-- Membership in the regex character class used by the tokenizer
(lowercase letters, digits, underscore). -/
def isTokenChar (c : Char) : Bool :=
  decide (97 ≤ c.toNat ∧ c.toNat ≤ 122) || decide (48 ≤ c.toNat ∧ c.toNat ≤ 57) || c == '_'

/-- Maximal runs of token characters, as produced by
re.findall over the lowercased text. -/
def tokenizeAux : List Char → List Char → List (List Char)
  | [], acc => if acc.isEmpty then [] else [acc.reverse]
  | ch :: rest, acc =>
    if isTokenChar ch then tokenizeAux rest (ch :: acc)
    else if acc.isEmpty then tokenizeAux rest []
    else acc.reverse :: tokenizeAux rest []

/-- re.findall of lowercase alphanumeric/underscore runs over text.lower(). -/
def tokenize (text : String) : List String :=
  (tokenizeAux (text.data.map Char.toLower) []).map fun cs => String.mk cs

/-- The three pieces of the SHA-256 digest of a token used by
_embed_locally: the first four bytes as a big-endian number, byte 4 and
byte 5. The hash itself is a fixed pure function, abstracted here as a
parameter of the embedding. -/
structure DigestBytes where
  first4 : ℕ
  byte4 : ℕ
  byte5 : ℕ

/-- One loop iteration of _embed_locally: add sign*weight into the
bucket selected by the digest. -/
def accumulate_token (digest : String → DigestBytes) (dim : ℕ)
    (v : List ℚ) (token : String) : List ℚ :=
  let d := digest token
  let idx := d.first4 % dim
  let sign : ℚ := if d.byte4 % 2 = 0 then 1 else -1
  let weight : ℚ := 1 + (d.byte5 : ℚ) / 255
  v.set idx (v.getD idx 0 + sign * weight)

/-- The accumulation phase of _embed_locally (everything before the final
L2 normalisation), which is exact rational arithmetic. -/
def embed_accumulate (digest : String → DigestBytes) (dim : ℕ) (text : String) : List ℚ :=
  (tokenize text).foldl (accumulate_token digest dim) (List.replicate dim 0)

/-- Sum of squares of a rational vector. -/
def sumSq (v : List ℚ) : ℚ := (v.map fun x => x * x).sum

/-- Sum of squares of a real vector (its squared L2 norm). -/
def normSqR (v : List ℝ) : ℝ := (v.map fun x => x * x).sum

/-- EmbeddingService._embed_locally from app/rag/embed.py: accumulate
hashed token weights, then divide by the L2 norm, where a zero norm is
replaced by 1 before dividing. -/
noncomputable def embed_locally (digest : String → DigestBytes) (dim : ℕ)
    (text : String) : List ℝ :=
  let v := embed_accumulate digest dim text
  let s := Real.sqrt ((sumSq v : ℚ) : ℝ)
  let norm : ℝ := if s = 0 then 1 else s
  v.map fun x => (Rat.cast x : ℝ) / norm

theorem sumSq_nonneg (v : List ℚ) : 0 ≤ sumSq v := by
  induction v with
  | nil => simp [sumSq]
  | cons x xs ih =>
    simp only [sumSq, List.map_cons, List.sum_cons]
    have := mul_self_nonneg x
    simp only [sumSq] at ih
    linarith

theorem sumSq_replicate_zero (n : ℕ) : sumSq (List.replicate n 0) = 0 := by
  induction n with
  | zero => simp [sumSq]
  | succ n ih =>
    simp only [sumSq, List.replicate_succ, List.map_cons, List.sum_cons] at ih ⊢
    rw [zero_mul, zero_add]
    exact ih

theorem normSqR_replicate_zero (n : ℕ) : normSqR (List.replicate n 0) = 0 := by
  induction n with
  | zero => simp [normSqR]
  | succ n ih =>
    simp only [normSqR, List.replicate_succ, List.map_cons, List.sum_cons] at ih ⊢
    rw [zero_mul, zero_add]
    exact ih

theorem embed_accumulate_length (digest : String → DigestBytes) (dim : ℕ) (text : String) :
    (embed_accumulate digest dim text).length = dim := by
  unfold embed_accumulate
  generalize tokenize text = ts
  have : ∀ (l : List String) (init : List ℚ), init.length = dim →
      (l.foldl (accumulate_token digest dim) init).length = dim := by
    intro l
    induction l with
    | nil => intro init h; simpa using h
    | cons t ts ih =>
      intro init h
      simp only [List.foldl_cons]
      exact ih _ (by simpa [accumulate_token] using h)
  exact this ts _ (List.length_replicate _ _)

theorem normSqR_map_div (v : List ℝ) (c : ℝ) (hc : c ≠ 0) :
    normSqR (v.map fun x => x / c) = normSqR v / c ^ 2 := by
  induction v with
  | nil => simp [normSqR]
  | cons x xs ih =>
    simp only [normSqR, List.map_cons, List.map_map, List.sum_cons] at ih ⊢
    rw [ih]
    field_simp
    ring

theorem sumSq_cast (v : List ℚ) :
    normSqR (v.map (Rat.cast : ℚ → ℝ)) = ((sumSq v : ℚ) : ℝ) := by
  induction v with
  | nil => simp [normSqR, sumSq]
  | cons x xs ih =>
    simp only [normSqR, sumSq, List.map_cons, List.map_map, List.sum_cons] at ih ⊢
    rw [ih]
    push_cast
    ring

/-- C8 (amended): the local embedding is a pure function of the text (so
identical text yields an identical vector), the returned vector always has
the configured dimension, and whenever the accumulated pre-normalisation
vector is nonzero the returned vector has squared L2 norm exactly 1.
(When the text has no tokens, or the buckets cancel exactly, the zero
vector is returned instead; see the counterexample.) -/
theorem embed_locally_spec (digest : String → DigestBytes) (dim : ℕ) (text : String) :
    (embed_locally digest dim text).length = dim ∧
    embed_locally digest dim text = embed_locally digest dim text ∧
    (sumSq (embed_accumulate digest dim text) ≠ 0 →
      normSqR (embed_locally digest dim text) = 1) := by
  refine ⟨?_, rfl, ?_⟩
  · unfold embed_locally
    rw [List.length_map, embed_accumulate_length]
  · intro hS
    have hpos : 0 < sumSq (embed_accumulate digest dim text) :=
      lt_of_le_of_ne (sumSq_nonneg _) (Ne.symm hS)
    have hposR : (0 : ℝ) < ((sumSq (embed_accumulate digest dim text) : ℚ) : ℝ) := by
      exact_mod_cast hpos
    have hsqrt : Real.sqrt ((sumSq (embed_accumulate digest dim text) : ℚ) : ℝ) ≠ 0 := by
      positivity
    unfold embed_locally
    simp only [if_neg hsqrt]
    have hsplit : (fun x : ℚ => (Rat.cast x : ℝ) /
        Real.sqrt ((sumSq (embed_accumulate digest dim text) : ℚ) : ℝ)) =
        (fun y : ℝ => y / Real.sqrt ((sumSq (embed_accumulate digest dim text) : ℚ) : ℝ))
          ∘ (Rat.cast : ℚ → ℝ) := rfl
    rw [hsplit, ← List.map_map, normSqR_map_div _ _ hsqrt, sumSq_cast,
      Real.sq_sqrt (le_of_lt hposR)]
    exact div_self (ne_of_gt hposR)

/-- A stub digest for concrete evaluations: every token hashes to bucket 0
with positive sign and weight 1. -/
def digest0 : String → DigestBytes := fun _ => ⟨0, 0, 0⟩

/-- Witness for the local-embedding spec at a one-token text: the
accumulated vector is nonzero and the returned vector has unit norm. -/
theorem embed_locally_spec_witness :
    sumSq (embed_accumulate digest0 4 "a") ≠ 0 ∧
    normSqR (embed_locally digest0 4 "a") = 1 := by
  have hS : sumSq (embed_accumulate digest0 4 "a") ≠ 0 := by
    have h : embed_accumulate digest0 4 "a"
        = [(0:ℚ) + 1 * (1 + ((0:ℕ):ℚ)/255), 0, 0, 0] := rfl
    rw [h]
    norm_num [sumSq]
  exact ⟨hS, (embed_locally_spec digest0 4 "a").2.2 hS⟩

set_option maxRecDepth 4000 in
/-- C8 (counterexample): on a text with no alphanumeric tokens, such as
the empty string, the accumulated vector is zero, so the zero norm is
replaced by 1 and the returned vector is the zero vector of the configured
dimension (1024 by default), whose L2 norm is 0, not 1 within tolerance. -/
theorem embed_locally_unit_norm_counterexample :
    embed_locally digest0 1024 "" = List.replicate 1024 (0 : ℝ) ∧
    normSqR (embed_locally digest0 1024 "") = 0 ∧
    ¬ |normSqR (embed_locally digest0 1024 "") - 1| ≤ 1/100 := by
  have hacc : embed_accumulate digest0 1024 "" = List.replicate 1024 (0 : ℚ) := rfl
  have hvec : embed_locally digest0 1024 "" = List.replicate 1024 (0 : ℝ) := by
    unfold embed_locally
    rw [hacc]
    simp [sumSq_replicate_zero, List.map_replicate]
  refine ⟨hvec, ?_, ?_⟩
  · rw [hvec, normSqR_replicate_zero]
  · rw [hvec, normSqR_replicate_zero]
    norm_num

/-! ## Cosine similarity (app/rag/index.py) -/

/-- cosine_similarity from app/rag/index.py: on an empty argument return 0;
otherwise take the common-length prefix, divide the dot product by the two
prefix norms, each replaced by 1 when zero. -/
noncomputable def cosine_similarity (a b : List ℝ) : ℝ :=
  if a = [] ∨ b = [] then 0
  else
    let n := min a.length b.length
    let dot := ((a.take n).zipWith (fun x y => x * y) (b.take n)).sum
    let na := if Real.sqrt (normSqR (a.take n)) = 0 then 1
              else Real.sqrt (normSqR (a.take n))
    let nb := if Real.sqrt (normSqR (b.take n)) = 0 then 1
              else Real.sqrt (normSqR (b.take n))
    dot / (na * nb)

theorem normSqR_nonneg (v : List ℝ) : 0 ≤ normSqR v := by
  induction v with
  | nil => simp [normSqR]
  | cons x xs ih =>
    simp only [normSqR, List.map_cons, List.sum_cons] at ih ⊢
    nlinarith [mul_self_nonneg x]

/-- Discrete Cauchy-Schwarz inequality over the zipped prefix. -/
theorem list_cauchy_schwarz (a : List ℝ) : ∀ b : List ℝ,
    ((a.zipWith (fun x y => x * y) b).sum) ^ 2 ≤ normSqR a * normSqR b := by
  induction a with
  | nil => intro b; simp [normSqR]
  | cons x xs ih =>
    intro b
    cases b with
    | nil => simp [normSqR]
    | cons y ys =>
      have hA : 0 ≤ (xs.map fun x => x * x).sum := by
        simpa [normSqR] using normSqR_nonneg xs
      have hB : 0 ≤ (ys.map fun x => x * x).sum := by
        simpa [normSqR] using normSqR_nonneg ys
      have hd := ih ys
      simp only [List.zipWith_cons_cons, normSqR, List.map_cons, List.sum_cons] at hd ⊢
      set d := ((xs.zipWith (fun x y => x * y) ys).sum) with hdd
      set A := ((xs.map fun x => x * x).sum) with hAA
      set B := ((ys.map fun x => x * x).sum) with hBB
      rcases eq_or_lt_of_le hB with hB0 | hBpos
      · have hd0 : d = 0 := by nlinarith [sq_nonneg d]
        rw [hd0]
        nlinarith [mul_nonneg hA (sq_nonneg y)]
      · nlinarith [sq_nonneg (x * B - y * d), mul_nonneg (sq_nonneg y) (sub_nonneg.2 hd),
          mul_nonneg (le_of_lt hBpos) (sub_nonneg.2 hd)]

/-- A vector with zero squared norm pairs to a zero dot product. -/
theorem dot_eq_zero_of_normSq_left (u : List ℝ) : ∀ v : List ℝ, normSqR u = 0 →
    (u.zipWith (fun x y => x * y) v).sum = 0 := by
  induction u with
  | nil => intro v _; simp
  | cons x xs ih =>
    intro v h
    cases v with
    | nil => simp
    | cons y ys =>
      simp only [normSqR, List.map_cons, List.sum_cons] at h
      have hA : 0 ≤ normSqR xs := normSqR_nonneg xs
      simp only [normSqR] at hA
      have hx : x * x = 0 := by nlinarith [mul_self_nonneg x]
      have hxs : (xs.map fun x => x * x).sum = 0 := by nlinarith [mul_self_nonneg x]
      have hx0 : x = 0 := by
        have := mul_self_eq_zero.mp hx
        exact this
      simp only [List.zipWith_cons_cons, List.sum_cons, hx0, zero_mul, zero_add]
      exact ih ys (by simpa [normSqR] using hxs)

theorem dot_eq_zero_of_normSq_right (u v : List ℝ) (h : normSqR v = 0) :
    (u.zipWith (fun x y => x * y) v).sum = 0 := by
  rw [List.zipWith_comm_of_comm _ mul_comm u v]
  exact dot_eq_zero_of_normSq_left v u h

/-- The quotient computed by cosine_similarity on arbitrary prefixes has
absolute value at most 1. -/
theorem cosine_quotient_bound (u v : List ℝ) :
    |((u.zipWith (fun x y => x * y) v).sum) /
      ((if Real.sqrt (normSqR u) = 0 then 1 else Real.sqrt (normSqR u)) *
        (if Real.sqrt (normSqR v) = 0 then 1 else Real.sqrt (normSqR v)))| ≤ 1 := by
  have hU : 0 ≤ normSqR u := normSqR_nonneg u
  have hV : 0 ≤ normSqR v := normSqR_nonneg v
  by_cases h1 : Real.sqrt (normSqR u) = 0
  · have hU0 : normSqR u = 0 := by
      have := Real.sqrt_eq_zero hU
      exact this.mp h1
    rw [dot_eq_zero_of_normSq_left u v hU0]
    simp
  · by_cases h2 : Real.sqrt (normSqR v) = 0
    · have hV0 : normSqR v = 0 := by
        have := Real.sqrt_eq_zero hV
        exact this.mp h2
      rw [dot_eq_zero_of_normSq_right u v hV0]
      simp
    · rw [if_neg h1, if_neg h2]
      have hsu : 0 < Real.sqrt (normSqR u) :=
        lt_of_le_of_ne (Real.sqrt_nonneg _) (Ne.symm h1)
      have hsv : 0 < Real.sqrt (normSqR v) :=
        lt_of_le_of_ne (Real.sqrt_nonneg _) (Ne.symm h2)
      have hprod : 0 < Real.sqrt (normSqR u) * Real.sqrt (normSqR v) :=
        mul_pos hsu hsv
      rw [abs_div, div_le_one (lt_of_lt_of_le hprod (le_abs_self _))]
      have habs : |Real.sqrt (normSqR u) * Real.sqrt (normSqR v)|
          = Real.sqrt (normSqR u) * Real.sqrt (normSqR v) := abs_of_pos hprod
      rw [habs]
      have hcs := list_cauchy_schwarz u v
      have hdot : |((u.zipWith (fun x y => x * y) v).sum)|
          = Real.sqrt (((u.zipWith (fun x y => x * y) v).sum) ^ 2) :=
        (Real.sqrt_sq_eq_abs _).symm
      rw [hdot]
      calc Real.sqrt (((u.zipWith (fun x y => x * y) v).sum) ^ 2)
          ≤ Real.sqrt (normSqR u * normSqR v) := Real.sqrt_le_sqrt hcs
        _ = Real.sqrt (normSqR u) * Real.sqrt (normSqR v) := Real.sqrt_mul hU _

/-- C9: cosine_similarity is total (defined on all pairs, including
empty lists, unequal lengths and zero vectors, where it returns 0 with no
division by zero since zero norms are replaced by 1), symmetric, and its
value always lies in the closed interval from -1 to 1. -/
theorem cosine_similarity_props (a b : List ℝ) :
    cosine_similarity a b = cosine_similarity b a ∧
    -1 ≤ cosine_similarity a b ∧ cosine_similarity a b ≤ 1 ∧
    ((a = [] ∨ b = []) → cosine_similarity a b = 0) := by
  have hsym : ∀ u v : List ℝ, cosine_similarity u v = cosine_similarity v u := by
    intro u v
    unfold cosine_similarity
    by_cases he : u = [] ∨ v = []
    · rw [if_pos he, if_pos (Or.symm he)]
    · rw [if_neg he, if_neg (fun h => he (Or.symm h))]
      simp only
      rw [Nat.min_comm v.length u.length,
        List.zipWith_comm_of_comm _ mul_comm (v.take _) (u.take _),
        mul_comm (if Real.sqrt (normSqR (v.take _)) = 0 then 1
          else Real.sqrt (normSqR (v.take _)))]
  have hbound : ∀ u v : List ℝ,
      -1 ≤ cosine_similarity u v ∧ cosine_similarity u v ≤ 1 := by
    intro u v
    unfold cosine_similarity
    by_cases he : u = [] ∨ v = []
    · rw [if_pos he]; norm_num
    · rw [if_neg he]
      simp only
      have := cosine_quotient_bound (u.take (min u.length v.length))
        (v.take (min u.length v.length))
      exact abs_le.mp this
  have hzero : (a = [] ∨ b = []) → cosine_similarity a b = 0 := by
    intro he
    unfold cosine_similarity
    rw [if_pos he]
  exact ⟨hsym a b, (hbound a b).1, (hbound a b).2, hzero⟩

/-- Witness for cosine totality on an empty and a zero-vector input:
cosine of the empty list against a nonempty list is 0. -/
theorem cosine_similarity_props_witness :
    cosine_similarity [] [1, 2] = 0 ∧ cosine_similarity [0, 0] [1, 2] ≤ 1 :=
  ⟨(cosine_similarity_props [] [1, 2]).2.2.2 (Or.inl rfl),
    (cosine_similarity_props [0, 0] [1, 2]).2.2.1⟩

/-! ## Dispatch gating (app/dispatch/base.py) -/

/-- The dict returned by DispatchManager.dispatch_if_approved. The source
returns one of two shapes: a refusal dict with dispatched=false and a
reason, or a success dict with dispatched=true, dry_run and both channel
results; absent keys are None here. The channel result payload type is a
parameter. -/
structure DispatchResult (α : Type) where
  dispatched : Bool
  reason : Option String
  dry_run : Option Bool
  voice : Option α
  email : Option α
deriving DecidableEq

/-- DispatchManager.dispatch_if_approved from app/dispatch/base.py.
The two awaited provider calls are modelled by their outcomes: ok with the
returned payload, or error for a raised exception. The value is the
returned-or-raised result paired with two flags recording whether the
voice and email providers were invoked. The source awaits the voice
provider first, then the email provider, with no exception handling
around either call. -/
def dispatch_if_approved {α : Type} (approval_status : String)
    (voice_call email_call : Except String α) (dry_run : Bool) :
    Except String (DispatchResult α) × Bool × Bool :=
  if approval_status ≠ "approved" then
    (Except.ok ⟨false, some "approval_required", none, none, none⟩, false, false)
  else
    match voice_call with
    | Except.error e => (Except.error e, true, false)
    | Except.ok vr =>
      match email_call with
      | Except.error e => (Except.error e, true, true)
      | Except.ok er =>
        (Except.ok ⟨true, none, some dry_run, some vr, some er⟩, true, true)

/-- C10: for any approval status other than approved, dispatch_if_approved
returns the refusal dict with dispatched=false and reason
approval_required, and invokes neither the voice nor the email provider. -/
theorem dispatch_not_approved_no_channels {α : Type} (approval_status : String)
    (voice_call email_call : Except String α) (dry_run : Bool)
    (h : approval_status ≠ "approved") :
    dispatch_if_approved approval_status voice_call email_call dry_run =
      (Except.ok ⟨false, some "approval_required", none, none, none⟩, false, false) := by
  unfold dispatch_if_approved
  rw [if_pos h]

/-- Witness for the non-approved dispatch theorem at status pending. -/
theorem dispatch_not_approved_no_channels_witness :
    dispatch_if_approved "pending" (Except.ok "voice") (Except.ok "email") true =
      (Except.ok ⟨false, some "approval_required", none, none, none⟩, false, false) :=
  dispatch_not_approved_no_channels "pending" (Except.ok "voice") (Except.ok "email") true
    (by decide)

/-- C6 (code behaviour at the failing input): on an approved case where the
voice provider raises and the email provider would succeed, the exception
propagates to the caller (nothing is captured structurally) and the email
channel is never attempted; moreover, whenever neither provider raises the
returned dict reports dispatched=true unconditionally, regardless of the
per-channel payloads, so dispatched does not track channel success. -/
theorem dispatch_channel_failure_bug :
    (dispatch_if_approved "approved"
        (Except.error "voice provider unavailable") (Except.ok "email-ok") true)
      = (Except.error "voice provider unavailable", true, false) ∧
    (∀ vr er : String, ∀ dry : Bool,
      (dispatch_if_approved "approved" (Except.ok vr) (Except.ok er) dry).1
        = Except.ok ⟨true, none, some dry, some vr, some er⟩) := by
  constructor
  · rfl
  · intro vr er dry
    rfl

/-! ## Run state machine (app/service.py SentinelService._execute_run)
and the scoring retry wrapper (app/agents/base.py). -/

/-- One row appended to the persistence layer, tagged with its table and
the case it belongs to (run-level rows carry an empty case id). The
ClickHouse client used by the service exposes inserts and reads only; the
core never issues updates or deletes. -/
structure RecordRow where
  table : String
  case_id : String
deriving DecidableEq

/-- The run bookkeeping visible in _execute_run: the persisted rows so
far, the processed counter, the run status and the recorded error. -/
structure RunState where
  store : List RecordRow
  processed : ℕ
  status : String
  error : Option String
deriving DecidableEq

/-- The aggregate metrics row inserted once on normal completion. -/
def metricsRecord : RecordRow := ⟨"metrics", ""⟩

/-- The for-loop of _execute_run inside its try block. The per-case body
(agents, retrieval, inserts, fusion update) is abstracted as step, which
returns the rows the body persisted for that case together with an
optional unhandled exception; when the body raises, the rows it persisted
before raising remain (ClickHouse inserts are not transactional), the
except branch marks the run failed with the error string, and the
remaining cases are never reached. On normal exhaustion the metrics row
is appended and the run is marked completed. -/
def execute_run_loop (step : String → List RecordRow × Option String) :
    List String → RunState → RunState
  | [], st => { st with status := "completed", store := st.store ++ [metricsRecord] }
  | cid :: rest, st =>
    let recs := (step cid).1
    match (step cid).2 with
    | some e =>
      { store := st.store ++ recs, processed := st.processed,
        status := "failed", error := some e }
    | none =>
      execute_run_loop step rest
        { store := st.store ++ recs, processed := st.processed + 1,
          status := st.status, error := st.error }

/-- AgentBase._invoke_with_retry from app/agents/base.py, indexed by the
current attempt number and the number of attempts remaining out of
max_attempts: on the last attempt the outcome (success or exception)
propagates as is; earlier failed attempts back off and retry. -/
def invoke_with_retry (invoke : ℕ → Except String String) :
    ℕ → ℕ → Except String String
  | _, 0 => Except.error "Unreachable"
  | attempt, 1 => invoke attempt
  | attempt, r + 2 =>
    match invoke attempt with
    | Except.ok v => Except.ok v
    | Except.error _ => invoke_with_retry invoke (attempt + 1) (r + 1)

/-- The retry wrapper at its default max_attempts = 3. -/
def invoke_with_retry3 (invoke : ℕ → Except String String) : Except String String :=
  invoke_with_retry invoke 1 3

/-- C5: if the cases before c all succeed and case c raises (in particular
when the scoring capability fails on all 3 retry attempts, in which case
the third attempt error propagates out of the retry wrapper), then the
run ends with status failed and the error recorded, the store is exactly
the prior store plus the records of the completed cases plus whatever
case c persisted before raising (append-only, no rollback), the processed
counter counts only the completed cases, and no record of any case after
c is ever persisted; and the retry wrapper returns the third error when
all three attempts fail. -/
theorem run_failure_semantics :
    (∀ (step : String → List RecordRow × Option String)
        (done : List String) (c : String) (rest : List String)
        (st : RunState) (e : String),
      (∀ d ∈ done, (step d).2 = none) →
      (step c).2 = some e →
      (execute_run_loop step (done ++ c :: rest) st).status = "failed" ∧
      (execute_run_loop step (done ++ c :: rest) st).error = some e ∧
      (execute_run_loop step (done ++ c :: rest) st).store
        = st.store ++ done.flatMap (fun d => (step d).1) ++ (step c).1 ∧
      (execute_run_loop step (done ++ c :: rest) st).processed
        = st.processed + done.length ∧
      ((∀ cid : String, ∀ r ∈ (step cid).1, r.case_id = cid) →
        ∀ x ∈ rest, x ∉ done → x ≠ c →
          ∀ r ∈ (execute_run_loop step (done ++ c :: rest) st).store,
            r ∈ st.store ∨ r.case_id ≠ x)) ∧
    (∀ (invoke : ℕ → Except String String) (e1 e2 e3 : String),
      invoke 1 = Except.error e1 → invoke 2 = Except.error e2 →
      invoke 3 = Except.error e3 →
      invoke_with_retry3 invoke = Except.error e3) := by
  constructor
  · intro step done c rest st e hdone hfail
    induction done generalizing st with
    | nil =>
      have hred : execute_run_loop step ([] ++ c :: rest) st =
          { store := st.store ++ (step c).1, processed := st.processed,
            status := "failed", error := some e } := by
        show execute_run_loop step (c :: rest) st = _
        unfold execute_run_loop
        rw [hfail]
      rw [hred]
      refine ⟨rfl, rfl, by simp, by simp, ?_⟩
      intro htag x hx hxdone hxc r hr
      rcases List.mem_append.mp hr with hr | hr
      · exact Or.inl hr
      · right
        rw [htag c r hr]
        exact fun hcx => hxc hcx.symm
    | cons d ds ih =>
      have hd : (step d).2 = none := hdone d (List.mem_cons_self d ds)
      have hds : ∀ d' ∈ ds, (step d').2 = none :=
        fun d' hd' => hdone d' (List.mem_cons_of_mem d hd')
      have hred : execute_run_loop step ((d :: ds) ++ c :: rest) st =
          execute_run_loop step (ds ++ c :: rest)
            ⟨st.store ++ (step d).1, st.processed + 1, st.status, st.error⟩ := by
        show execute_run_loop step (d :: (ds ++ c :: rest)) st = _
        conv_lhs => unfold execute_run_loop
        rw [hd]
      have hih := ih ⟨st.store ++ (step d).1, st.processed + 1, st.status, st.error⟩ hds
      rw [hred]
      refine ⟨hih.1, hih.2.1, ?_, ?_, ?_⟩
      · rw [hih.2.2.1]
        simp [List.append_assoc]
      · rw [hih.2.2.2.1]
        simp only [List.length_cons]
        omega
      · intro htag x hx hxdone hxc r hr
        have hxds : x ∉ ds := fun hmem => hxdone (List.mem_cons_of_mem d hmem)
        have hxd : x ≠ d := fun hxd => hxdone (hxd ▸ List.mem_cons_self d ds)
        rcases hih.2.2.2.2 htag x hx hxds hxc r hr with hmem | hne
        · rcases List.mem_append.mp hmem with hmem | hmem
          · exact Or.inl hmem
          · right
            rw [htag d r hmem]
            exact fun h => hxd h.symm
        · exact Or.inr hne
  · intro invoke e1 e2 e3 h1 h2 h3
    have s1 : invoke_with_retry3 invoke
        = match invoke 1 with
          | Except.ok v => Except.ok v
          | Except.error _ => invoke_with_retry invoke 2 2 := rfl
    have s2 : invoke_with_retry invoke 2 2
        = match invoke 2 with
          | Except.ok v => Except.ok v
          | Except.error _ => invoke_with_retry invoke 3 1 := rfl
    have s3 : invoke_with_retry invoke 3 1 = invoke 3 := rfl
    rw [s1, h1]
    show invoke_with_retry invoke 2 2 = Except.error e3
    rw [s2, h2]
    show invoke_with_retry invoke 3 1 = Except.error e3
    rw [s3, h3]

/-- The per-case behaviour of the quoted scenario run: case 1 and case 3
persist their rows and succeed, case 2 persists its case row and then
raises after the scoring capability exhausts its retries. -/
def scenarioStep : String → List RecordRow × Option String :=
  fun cid =>
    if cid = "case-2" then ([⟨"cases", "case-2"⟩], some "scoring capability failed")
    else ([⟨"cases", cid⟩, ⟨"decisions", cid⟩, ⟨"approvals", cid⟩], none)

/-- Witness for the run-failure semantics on a concrete 3-case run whose
second case fails, and for the retry wrapper with three failing attempts. -/
theorem run_failure_semantics_witness :
    (execute_run_loop scenarioStep ["case-1", "case-2", "case-3"]
        ⟨[], 0, "running", none⟩).status = "failed" ∧
    (execute_run_loop scenarioStep ["case-1", "case-2", "case-3"]
        ⟨[], 0, "running", none⟩).error = some "scoring capability failed" ∧
    (execute_run_loop scenarioStep ["case-1", "case-2", "case-3"]
        ⟨[], 0, "running", none⟩).store
      = [⟨"cases", "case-1"⟩, ⟨"decisions", "case-1"⟩, ⟨"approvals", "case-1"⟩,
          ⟨"cases", "case-2"⟩] ∧
    (execute_run_loop scenarioStep ["case-1", "case-2", "case-3"]
        ⟨[], 0, "running", none⟩).processed = 1 ∧
    invoke_with_retry3 (fun _ => Except.error "fail") = Except.error "fail" := by
  have hdone : ∀ d ∈ ["case-1"], (scenarioStep d).2 = none := by decide
  have hfail : (scenarioStep "case-2").2 = some "scoring capability failed" := by decide
  have hlist : (["case-1", "case-2", "case-3"] : List String)
      = ["case-1"] ++ "case-2" :: ["case-3"] := rfl
  have hmain := run_failure_semantics.1 scenarioStep ["case-1"] "case-2" ["case-3"]
    ⟨[], 0, "running", none⟩ "scoring capability failed" hdone hfail
  rw [hlist]
  refine ⟨hmain.1, hmain.2.1, ?_, hmain.2.2.2.1, ?_⟩
  · rw [hmain.2.2.1]
    decide
  · exact run_failure_semantics.2 (fun _ => Except.error "fail") "fail" "fail" "fail"
      rfl rfl rfl

/-! ## Retrieval data model (app/rag/retrieve.py, app/rag/index.py)

The payload dicts flowing through retrieval are modelled as a JSON tree.
Store rows are typed as the system writes them (schema.py columns,
service.py inserts); free-form parts (the prompt-update dict coming from
the meta stage) stay generic. -/

/-- A JSON-like value: the shape of the dict payloads built by the
retrieval searches. -/
inductive Json where
  | null
  | bool (b : Bool)
  | num (q : ℚ)
  | str (s : String)
  | arr (items : List Json)
  | obj (fields : List (String × Json))

/-- The ground-truth field names of RawCase (models.py GroundTruth plus
the two container columns), which must never appear in retrieval output. -/
def leakForbiddenKey (k : String) : Bool :=
  k == "ground_truth" || k == "ground_truth_json" || k == "true_outbreak" ||
    k == "true_severity" || k == "official_alert_date"

def Json.isArr : Json → Bool
  | .arr _ => true
  | _ => false

mutual

/-- No object anywhere in the tree carries a ground-truth field name, and
no object anywhere carries an embedding vector (an array stored under the
key named embedding). -/
def leakFreeB : Json → Bool
  | .obj fields => leakFreeFields fields
  | .arr xs => leakFreeArr xs
  | .null => true
  | .bool _ => true
  | .num _ => true
  | .str _ => true

def leakFreeFields : List (String × Json) → Bool
  | [] => true
  | (k, v) :: rest =>
    !leakForbiddenKey k && !(k == "embedding" && v.isArr) && leakFreeB v
      && leakFreeFields rest

def leakFreeArr : List Json → Bool
  | [] => true
  | x :: rest => leakFreeB x && leakFreeArr rest

end

/-- Key lookup in a JSON object, as dict.get. -/
def Json.getKey : Json → String → Option Json
  | .obj fields, k => (fields.find? fun kv => kv.1 == k).map fun kv => kv.2
  | _, _ => none

/-- Key lookup returning a string value. -/
def Json.getStr (j : Json) (k : String) : Option String :=
  match j.getKey k with
  | some (.str s) => some s
  | _ => none

/-- A scalar payload value (the system stores strings, numbers, booleans
or nulls in the fields the searches read). -/
inductive Scalar where
  | str (s : String)
  | num (q : ℚ)
  | bool (b : Bool)
  | null
deriving DecidableEq

def Scalar.toJson : Scalar → Json
  | .str s => .str s
  | .num q => .num q
  | .bool b => .bool b
  | .null => .null

/-- Python truthiness of a scalar, for the date fallback
normalized.get("date") or row.get("case_date"). -/
def Scalar.falsy : Scalar → Bool
  | .null => true
  | .str s => s == ""
  | .num q => q == 0
  | .bool b => !b

/-- A stored date value as seen by _coerce_date: a datetime, a date, a
string that parses (carrying the parsed day) or does not, or a value of
another type. Days are integers. -/
inductive DateVal where
  | dt (day : ℤ)
  | d (day : ℤ)
  | s (parsed : Option ℤ)
  | other
deriving DecidableEq

/-- _coerce_date from app/rag/retrieve.py: datetimes and dates coerce to
their day, strings to their parse result, anything else to None. -/
def coerce_date : DateVal → Option ℤ
  | .dt day => some day
  | .d day => some day
  | .s parsed => parsed
  | .other => none

/-- The scalar a date value displays as when placed in a payload dict.
Only the key structure and the coerced day matter to the properties
below, so the rendering is schematic. -/
def DateVal.toScalar : DateVal → Scalar
  | .dt day => .num day
  | .d day => .num day
  | .s _ => .str ""
  | .other => .null

/-- The future-date exclusion test of _search_clickhouse_cases and
_filter_past_outbreak_hits: excluded when the query case has a coercible
date, the row date coerces, and the row date is strictly later. -/
def is_future (current : Option ℤ) (rowDate : DateVal) : Bool :=
  match current, coerce_date rowDate with
  | some dq, some rd => decide (dq < rd)
  | _, _ => false

/-- The fields of normalized_json read by _search_clickhouse_cases.
NormalizedCase stores scalars in these fields (RawCase country, city,
pathogen_label and date are scalars and the ingest stage only adds
scalar-valued derived fields). -/
structure NormalizedStored where
  country : Scalar
  city : Scalar
  pathogen_label : Scalar
  date : Scalar

/-- A row of the cases table as selected by _search_clickhouse_cases
(case_id, run_id, case_date, normalized_json, embedding). normalized is
none when _loads_json yields the empty dict. -/
structure CaseRow where
  case_id : String
  run_id : Scalar
  case_date : DateVal
  normalized : Option NormalizedStored
  embedding : List ℚ

/-- dict.get on the parsed normalized_json (None when absent). -/
def normGet (n : Option NormalizedStored) (f : NormalizedStored → Scalar) : Scalar :=
  match n with
  | none => .null
  | some v => f v

/-- The payload dict built for one clickhouse record
(retrieve.py lines 109 to 123). -/
def chPayload (row : CaseRow) : Json :=
  .obj [("run_id", row.run_id.toJson),
        ("summary", .obj
          [("country", (normGet row.normalized (fun n => n.country)).toJson),
           ("city", (normGet row.normalized (fun n => n.city)).toJson),
           ("pathogen_label", (normGet row.normalized (fun n => n.pathogen_label)).toJson),
           ("date",
             (if (normGet row.normalized (fun n => n.date)).falsy
              then row.case_date.toScalar
              else normGet row.normalized (fun n => n.date)).toJson)])]

/-- An entry of the in-memory past-outbreak index as added by
build_past_outbreak_index: item_id is str(case_id) and the payload holds
case_id, country, city, date and the summary text. -/
structure PastIndexEntry where
  item_id : String
  case_id : String
  country : Scalar
  city : Scalar
  date : DateVal
  summary : String
  embedding : List ℚ

/-- The payload dict of a past-outbreak index entry. -/
def pastPayload (e : PastIndexEntry) : Json :=
  .obj [("case_id", .str e.case_id), ("country", e.country.toJson),
        ("city", e.city.toJson), ("date", e.date.toScalar.toJson),
        ("summary", .str e.summary)]

/-- The weights_json content written by service.py (exactly the three
weight keys). -/
structure WeightsStored where
  w_genomics : ℚ
  w_epi : ℚ
  w_geo : ℚ

/-- A row of strategy_memory as selected by _search_strategy_memory.
updated_prompts is the parsed updated_prompts_json: a string-to-string
dict whose keys merge the fixed per-stage keys with whatever keys the
meta stage produced, hence kept generic. -/
structure StrategyRow where
  run_id : String
  case_id : String
  strategy_notes : String
  updated_prompts : Option (List (String × String))
  weights : Option WeightsStored
  threshold : Scalar
  embedding : List ℚ

def promptsToJson (p : Option (List (String × String))) : Json :=
  .obj ((p.getD []).map fun kv => (kv.1, Json.str kv.2))

def weightsToJson : Option WeightsStored → Json
  | none => .obj []
  | some w => .obj [("w_genomics", .num w.w_genomics), ("w_epi", .num w.w_epi),
      ("w_geo", .num w.w_geo)]

/-- The payload dict built for one strategy-memory record
(retrieve.py lines 143 to 156). -/
def strategyPayload (row : StrategyRow) : Json :=
  .obj [("run_id", .str row.run_id), ("case_id", .str row.case_id),
        ("strategy_notes", .str row.strategy_notes),
        ("updated_prompts", promptsToJson row.updated_prompts),
        ("weights", weightsToJson row.weights),
        ("threshold", row.threshold.toJson)]

theorem leakFree_scalar (sc : Scalar) : leakFreeB sc.toJson = true := by
  cases sc <;> rfl

theorem leakFreeFields_nil : leakFreeFields [] = true := rfl

theorem leakFree_num (q : ℚ) : leakFreeB (.num q) = true := rfl

/-- A field whose key is neither a ground-truth name nor embedding keeps
an object leak-free. -/
theorem leakFreeFields_cons_of (k : String) (v : Json) (rest : List (String × Json))
    (hk : leakForbiddenKey k = false) (hke : (k == "embedding") = false)
    (hv : leakFreeB v = true) (hrest : leakFreeFields rest = true) :
    leakFreeFields ((k, v) :: rest) = true := by
  simp [leakFreeFields, hk, hke, hv, hrest]

/-- A string-valued field with any non-ground-truth key keeps an object
leak-free (a string is not an embedding vector). -/
theorem leakFreeFields_cons_str (k s : String) (rest : List (String × Json))
    (hk : leakForbiddenKey k = false) (hrest : leakFreeFields rest = true) :
    leakFreeFields ((k, Json.str s) :: rest) = true := by
  simp [leakFreeFields, hk, hrest, Json.isArr, leakFreeB]

theorem leakFree_chPayload (row : CaseRow) : leakFreeB (chPayload row) = true := by
  show leakFreeFields _ = true
  apply leakFreeFields_cons_of _ _ _ (by decide) (by decide) (leakFree_scalar _)
  apply leakFreeFields_cons_of _ _ _ (by decide) (by decide) ?_ leakFreeFields_nil
  show leakFreeFields _ = true
  apply leakFreeFields_cons_of _ _ _ (by decide) (by decide) (leakFree_scalar _)
  apply leakFreeFields_cons_of _ _ _ (by decide) (by decide) (leakFree_scalar _)
  apply leakFreeFields_cons_of _ _ _ (by decide) (by decide) (leakFree_scalar _)
  apply leakFreeFields_cons_of _ _ _ (by decide) (by decide) (leakFree_scalar _)
    leakFreeFields_nil

theorem leakFree_pastPayload (e : PastIndexEntry) : leakFreeB (pastPayload e) = true := by
  show leakFreeFields _ = true
  apply leakFreeFields_cons_str _ _ _ (by decide)
  apply leakFreeFields_cons_of _ _ _ (by decide) (by decide) (leakFree_scalar _)
  apply leakFreeFields_cons_of _ _ _ (by decide) (by decide) (leakFree_scalar _)
  apply leakFreeFields_cons_of _ _ _ (by decide) (by decide) (leakFree_scalar _)
  apply leakFreeFields_cons_str _ _ _ (by decide) leakFreeFields_nil

theorem leakFree_prompt_list (l : List (String × String))
    (hwf : ∀ kv ∈ l, leakForbiddenKey kv.1 = false) :
    leakFreeFields (l.map fun kv => (kv.1, Json.str kv.2)) = true := by
  induction l with
  | nil => rfl
  | cons kv rest ih =>
    rw [List.map_cons]
    exact leakFreeFields_cons_str _ _ _ (hwf kv (List.mem_cons_self kv rest))
      (ih fun kv2 h => hwf kv2 (List.mem_cons_of_mem kv h))

theorem leakFree_prompts (p : Option (List (String × String)))
    (hwf : ∀ kv ∈ p.getD [], leakForbiddenKey kv.1 = false) :
    leakFreeB (promptsToJson p) = true :=
  leakFree_prompt_list (p.getD []) hwf

theorem leakFree_weights (w : Option WeightsStored) :
    leakFreeB (weightsToJson w) = true := by
  cases w with
  | none => rfl
  | some w =>
    show leakFreeFields _ = true
    apply leakFreeFields_cons_of _ _ _ (by decide) (by decide) (leakFree_num _)
    apply leakFreeFields_cons_of _ _ _ (by decide) (by decide) (leakFree_num _)
    apply leakFreeFields_cons_of _ _ _ (by decide) (by decide) (leakFree_num _)
      leakFreeFields_nil

theorem leakFree_strategyPayload (row : StrategyRow)
    (hwf : ∀ kv ∈ row.updated_prompts.getD [], leakForbiddenKey kv.1 = false) :
    leakFreeB (strategyPayload row) = true := by
  show leakFreeFields _ = true
  apply leakFreeFields_cons_str _ _ _ (by decide)
  apply leakFreeFields_cons_str _ _ _ (by decide)
  apply leakFreeFields_cons_str _ _ _ (by decide)
  apply leakFreeFields_cons_of _ _ _ (by decide) (by decide) (leakFree_prompts _ hwf)
  apply leakFreeFields_cons_of _ _ _ (by decide) (by decide) (leakFree_weights _)
  apply leakFreeFields_cons_of _ _ _ (by decide) (by decide) (leakFree_scalar _)
    leakFreeFields_nil

/-! ## Retrieval searches, reranking and stripping (app/rag/retrieve.py,
app/rag/index.py, app/rag/rerank.py) -/

/-- One scored candidate dict as built by the searches: item_id,
similarity, payload, and the rerank_score key added by the remote rerank
path. The payload type is the structured payload for in-memory hits
(so the post-search filter can read it) and Json otherwise. -/
structure RagItem (α : Type) where
  item_id : String
  similarity : ℚ
  payload : α
  rerank_score : Option ℚ

/-- scored.sort(key=similarity, reverse=True). Membership and truncation
are all the properties below use, so any permutation-correct stable sort
models the Python sort; insertion sort is used here. -/
def sortBySimilarityDesc {α : Type} (l : List (RagItem α)) : List (RagItem α) :=
  l.insertionSort fun a b => b.similarity ≤ a.similarity

theorem mem_sortBySimilarityDesc {α : Type} {l : List (RagItem α)} {x : RagItem α} :
    x ∈ sortBySimilarityDesc l ↔ x ∈ l :=
  List.mem_insertionSort _

/-- Retriever._search_clickhouse_cases: scan the (recency-bounded) case
rows, skipping the querying case and rows with a coercible date strictly
after the query date, score the rest, sort by similarity and truncate.
The similarity function is a parameter (the source uses float cosine
similarity); no property below depends on its values. The rows list
stands for the result of the LIMIT-bounded query. -/
def search_clickhouse_cases (sim : List ℚ → List ℚ → ℚ) (case_id : String)
    (query_embedding : List ℚ) (current_case_date : Option ℤ) (k : ℕ)
    (rows : List CaseRow) : List (RagItem Json) :=
  let scored := rows.filterMap fun row =>
    if row.case_id == case_id then none
    else if is_future current_case_date row.case_date then none
    else some ⟨row.case_id, sim query_embedding row.embedding, chPayload row, none⟩
  (sortBySimilarityDesc scored).take k

/-- InMemoryVectorIndex.search: score every entry, sort by similarity
descending, truncate to k. -/
def index_search (sim : List ℚ → List ℚ → ℚ) (query_embedding : List ℚ) (k : ℕ)
    (entries : List PastIndexEntry) : List (RagItem PastIndexEntry) :=
  (sortBySimilarityDesc (entries.map fun e =>
    ⟨e.item_id, sim query_embedding e.embedding, e, none⟩)).take k

/-- _filter_past_outbreak_hits: drop self matches and future-dated hits,
stopping after top_k survivors (filter then take, which preserves order
exactly as the loop with break does). -/
def filter_past_outbreak_hits (case_id : String) (current_case_date : Option ℤ)
    (hits : List (RagItem PastIndexEntry)) (top_k : ℕ) : List (RagItem PastIndexEntry) :=
  ((hits.filter fun hit =>
    !(hit.payload.case_id == case_id) && !(is_future current_case_date hit.payload.date)).take
      top_k)

/-- Retriever._search_strategy_memory: score every strategy row (no self
or date filtering), sort, truncate. -/
def search_strategy_memory (sim : List ℚ → List ℚ → ℚ) (query_embedding : List ℚ)
    (k : ℕ) (rows : List StrategyRow) : List (RagItem Json) :=
  (sortBySimilarityDesc (rows.map fun row =>
    ⟨row.run_id ++ "::" ++ row.case_id, sim query_embedding row.embedding,
      strategyPayload row, none⟩)).take k

mutual

/-- A computable size of a JSON tree, standing in for len(str(payload))
in the local rerank tie-break; only the ordering it induces matters, and
no property below depends on it. -/
def Json.size : Json → ℕ
  | .obj fields => 1 + Json.sizeFields fields
  | .arr xs => 1 + Json.sizeArr xs
  | .null => 1
  | .bool _ => 1
  | .num _ => 1
  | .str s => 1 + s.length

def Json.sizeFields : List (String × Json) → ℕ
  | [] => 0
  | (k, v) :: rest => k.length + Json.size v + Json.sizeFields rest

def Json.sizeArr : List Json → ℕ
  | [] => 0
  | x :: rest => Json.size x + Json.sizeArr rest

end

/-- The local-sort key of Reranker._rerank_local: (similarity, payload
size) descending. -/
def local_rerank_le (a b : RagItem Json) : Prop :=
  b.similarity < a.similarity ∨
    (b.similarity = a.similarity ∧ Json.size b.payload ≤ Json.size a.payload)

instance : DecidableRel local_rerank_le := fun _ _ =>
  inferInstanceAs (Decidable (_ ∨ _))

/-- Reranker.rerank: empty input returned as is; the remote path (Amazon
or Cohere) is modelled by its response plan, a list of (index, relevance)
entries, each of which re-emits the indexed input item with a rerank_score
added (an out-of-range index, which would raise in the source, emits
nothing here); on no plan (rerank disabled or remote failure) the local
fallback sorts by (similarity, payload size) descending and truncates. -/
def rerank (plan : Option (List (ℕ × ℚ))) (items : List (RagItem Json)) (top_k : ℕ) :
    List (RagItem Json) :=
  if items.isEmpty then items
  else
    let k := if top_k = 0 then items.length else top_k
    match plan with
    | some entries =>
      entries.filterMap fun e =>
        (items.get? e.1).map fun it => { it with rerank_score := some e.2 }
    | none => (items.insertionSort local_rerank_le).take k

/-- The heavy/sensitive keys removed by _strip_heavy_fields. -/
def heavy_key (k : String) : Bool :=
  k == "embedding" || k == "normalized_json" || k == "ground_truth" || k == "ground_truth_json"

/-- The payload-level part of _strip_heavy_fields: drop heavy keys from a
payload dict. -/
def stripTopLevel : Json → Json
  | .obj fields => .obj (fields.filter fun kv => !heavy_key kv.1)
  | j => j

/-- _strip_heavy_fields: drop heavy keys from each item dict and from its
payload dict. The item dicts built by the searches only carry the keys
item_id, similarity, payload and rerank_score, so the item-level
comprehension keeps all of them and only the payload-level filter acts. -/
def strip_heavy_fields (items : List (RagItem Json)) : List (RagItem Json) :=
  items.map fun it => { it with payload := stripTopLevel it.payload }

/-- top_k or settings.rag_top_k, with Python falsiness of 0. -/
def resolve_top_k (top_k : Option ℕ) (rag_top_k : ℕ) : ℕ :=
  match top_k with
  | some n => if n = 0 then rag_top_k else n
  | none => rag_top_k

/-- The remote rerank responses available to one retrieve call, one per
candidate list; none means the local fallback path is taken. -/
structure RerankPlans where
  ch : Option (List (ℕ × ℚ))
  past : Option (List (ℕ × ℚ))
  strat : Option (List (ℕ × ℚ))

/-- The dict returned by Retriever.retrieve. -/
structure RetrieveResult where
  clickhouse_records : List (RagItem Json)
  past_outbreak_cases : List (RagItem Json)
  strategy_memory : List (RagItem Json)
  query_case : Json

/-- Render an in-memory hit with its payload dict, as handed to the
reranker. -/
def pastItemToJson (it : RagItem PastIndexEntry) : RagItem Json :=
  ⟨it.item_id, it.similarity, pastPayload it.payload, it.rerank_score⟩

/-- Retriever.retrieve from app/rag/retrieve.py: three searches (with the
in-memory index over-scanned by max(10k, k+8) then filtered), each
reranked and stripped of heavy fields. The query case date, country and
city are the fields of normalized_case the function reads. -/
def retrieve (sim : List ℚ → List ℚ → ℚ) (plans : RerankPlans)
    (case_rows : List CaseRow) (past_index : List PastIndexEntry)
    (strategy_rows : List StrategyRow) (case_id : String) (query_date : DateVal)
    (query_country query_city : Scalar) (query_embedding : List ℚ)
    (top_k : Option ℕ) (rag_top_k : ℕ) : RetrieveResult :=
  let k := resolve_top_k top_k rag_top_k
  let current_case_date := coerce_date query_date
  let from_clickhouse :=
    search_clickhouse_cases sim case_id query_embedding current_case_date k case_rows
  let overscan := max (k * 10) (k + 8)
  let from_past_all := index_search sim query_embedding overscan past_index
  let from_past := filter_past_outbreak_hits case_id current_case_date from_past_all k
  let from_strategy := search_strategy_memory sim query_embedding k strategy_rows
  { clickhouse_records := strip_heavy_fields (rerank plans.ch from_clickhouse k)
    past_outbreak_cases :=
      strip_heavy_fields (rerank plans.past (from_past.map pastItemToJson) k)
    strategy_memory := strip_heavy_fields (rerank plans.strat from_strategy k)
    query_case := .obj [("case_id", .str case_id), ("country", query_country.toJson),
      ("city", query_city.toJson)] }

/-- The JSON rendering of a returned item dict (for stating that no
returned item contains a forbidden field at any depth). -/
def RagItem.toJson (it : RagItem Json) : Json :=
  .obj ([("item_id", .str it.item_id), ("similarity", .num it.similarity),
        ("payload", it.payload)] ++
    match it.rerank_score with
    | some r => [("rerank_score", Json.num r)]
    | none => [])

/-! Transport lemmas: membership through rerank and strip. -/

theorem rerank_mem (plan : Option (List (ℕ × ℚ))) (items : List (RagItem Json)) (k : ℕ) :
    ∀ it ∈ rerank plan items k, ∃ src ∈ items,
      it.item_id = src.item_id ∧ it.similarity = src.similarity ∧
        it.payload = src.payload := by
  intro it hit
  unfold rerank at hit
  by_cases he : items.isEmpty
  · rw [if_pos he] at hit
    exact ⟨it, hit, rfl, rfl, rfl⟩
  · rw [if_neg he] at hit
    cases plan with
    | some entries =>
      simp only at hit
      rcases List.mem_filterMap.mp hit with ⟨e, _, hmap⟩
      rcases Option.map_eq_some'.mp hmap with ⟨src, hget, heq⟩
      refine ⟨src, List.get?_mem hget, ?_, ?_, ?_⟩ <;> rw [← heq]
    | none =>
      simp only at hit
      have h2 := List.mem_insertionSort local_rerank_le |>.mp (List.take_subset _ _ hit)
      exact ⟨it, h2, rfl, rfl, rfl⟩

theorem strip_mem (items : List (RagItem Json)) :
    ∀ it ∈ strip_heavy_fields items, ∃ src ∈ items,
      it.item_id = src.item_id ∧ it.similarity = src.similarity ∧
        it.payload = stripTopLevel src.payload ∧ it.rerank_score = src.rerank_score := by
  intro it hit
  rcases List.mem_map.mp hit with ⟨src, hsrc, heq⟩
  refine ⟨src, hsrc, ?_, ?_, ?_, ?_⟩ <;> rw [← heq]

theorem leakFreeFields_filter (fields : List (String × Json))
    (p : String × Json → Bool) (h : leakFreeFields fields = true) :
    leakFreeFields (fields.filter p) = true := by
  induction fields with
  | nil => exact h
  | cons kv rest ih =>
    obtain ⟨k, v⟩ := kv
    rw [leakFreeFields] at h
    simp only [Bool.and_eq_true] at h
    rw [List.filter_cons]
    by_cases hp : p (k, v) = true
    · rw [if_pos hp, leakFreeFields]
      simp only [Bool.and_eq_true]
      exact ⟨⟨⟨h.1.1.1, h.1.1.2⟩, h.1.2⟩, ih h.2⟩
    · rw [if_neg hp]
      exact ih h.2

theorem leakFree_strip (j : Json) (h : leakFreeB j = true) :
    leakFreeB (stripTopLevel j) = true := by
  cases j with
  | obj fields =>
    show leakFreeFields _ = true
    exact leakFreeFields_filter fields _ h
  | null => exact h
  | bool b => exact h
  | num q => exact h
  | str s => exact h
  | arr xs => exact h

theorem leakFree_item_toJson (it : RagItem Json) (h : leakFreeB it.payload = true) :
    leakFreeB (RagItem.toJson it) = true := by
  obtain ⟨iid, simv, pay, rs⟩ := it
  cases rs with
  | none =>
    show leakFreeFields ([("item_id", Json.str iid), ("similarity", Json.num simv),
      ("payload", pay)] ++ []) = true
    rw [List.append_nil]
    apply leakFreeFields_cons_str _ _ _ (by decide)
    apply leakFreeFields_cons_of _ _ _ (by decide) (by decide) (leakFree_num _)
    exact leakFreeFields_cons_of _ _ _ (by decide) (by decide) h leakFreeFields_nil
  | some r =>
    show leakFreeFields ([("item_id", Json.str iid), ("similarity", Json.num simv),
      ("payload", pay)] ++ [("rerank_score", Json.num r)]) = true
    show leakFreeFields [("item_id", Json.str iid), ("similarity", Json.num simv),
      ("payload", pay), ("rerank_score", Json.num r)] = true
    apply leakFreeFields_cons_str _ _ _ (by decide)
    apply leakFreeFields_cons_of _ _ _ (by decide) (by decide) (leakFree_num _)
    apply leakFreeFields_cons_of _ _ _ (by decide) (by decide) h
    exact leakFreeFields_cons_of _ _ _ (by decide) (by decide) (leakFree_num _)
      leakFreeFields_nil

/-- Anything surviving strip-after-rerank over leak-free sources renders
to a leak-free item dict. -/
theorem leak_free_strip_rerank (plan : Option (List (ℕ × ℚ)))
    (items : List (RagItem Json)) (k : ℕ)
    (hsrc : ∀ src ∈ items, leakFreeB src.payload = true) :
    ∀ it ∈ strip_heavy_fields (rerank plan items k),
      leakFreeB (RagItem.toJson it) = true := by
  intro it hit
  rcases strip_mem _ it hit with ⟨mid, hmid, _, _, hpay, _⟩
  rcases rerank_mem plan items k mid hmid with ⟨src, hsrc2, _, _, hpay2⟩
  apply leakFree_item_toJson
  rw [hpay, hpay2]
  exact leakFree_strip _ (hsrc src hsrc2)

/-! Provenance of search results. -/

theorem search_ch_mem (sim : List ℚ → List ℚ → ℚ) (case_id : String)
    (qe : List ℚ) (ccd : Option ℤ) (k : ℕ) (rows : List CaseRow) :
    ∀ it ∈ search_clickhouse_cases sim case_id qe ccd k rows,
      ∃ row ∈ rows, it = ⟨row.case_id, sim qe row.embedding, chPayload row, none⟩ ∧
        (row.case_id == case_id) = false ∧ is_future ccd row.case_date = false := by
  intro it hit
  unfold search_clickhouse_cases at hit
  have hit2 := mem_sortBySimilarityDesc.mp (List.take_subset _ _ hit)
  rcases List.mem_filterMap.mp hit2 with ⟨row, hrow, hmk⟩
  by_cases h1 : (row.case_id == case_id) = true
  · rw [if_pos h1] at hmk
    exact absurd hmk (by simp)
  · rw [if_neg h1] at hmk
    by_cases h2 : is_future ccd row.case_date = true
    · rw [if_pos h2] at hmk
      exact absurd hmk (by simp)
    · rw [if_neg h2] at hmk
      exact ⟨row, hrow, (Option.some.inj hmk).symm,
        Bool.not_eq_true _ ▸ h1, Bool.not_eq_true _ ▸ h2⟩

theorem index_search_mem (sim : List ℚ → List ℚ → ℚ) (qe : List ℚ) (k : ℕ)
    (entries : List PastIndexEntry) :
    ∀ it ∈ index_search sim qe k entries, ∃ e ∈ entries,
      it = ⟨e.item_id, sim qe e.embedding, e, none⟩ := by
  intro it hit
  unfold index_search at hit
  have hit2 := mem_sortBySimilarityDesc.mp (List.take_subset _ _ hit)
  rcases List.mem_map.mp hit2 with ⟨e, he, heq⟩
  exact ⟨e, he, heq.symm⟩

theorem filter_past_mem (case_id : String) (ccd : Option ℤ)
    (hits : List (RagItem PastIndexEntry)) (k : ℕ) :
    ∀ hit ∈ filter_past_outbreak_hits case_id ccd hits k,
      hit ∈ hits ∧ (hit.payload.case_id == case_id) = false ∧
        is_future ccd hit.payload.date = false := by
  intro hit h
  unfold filter_past_outbreak_hits at h
  have h2 := List.take_subset _ _ h
  have h3 := List.mem_filter.mp h2
  have h4 := h3.2
  simp only [Bool.and_eq_true, Bool.not_eq_true'] at h4
  exact ⟨h3.1, h4.1, h4.2⟩

theorem search_strategy_mem (sim : List ℚ → List ℚ → ℚ) (qe : List ℚ) (k : ℕ)
    (rows : List StrategyRow) :
    ∀ it ∈ search_strategy_memory sim qe k rows, ∃ row ∈ rows,
      it = ⟨row.run_id ++ "::" ++ row.case_id, sim qe row.embedding,
        strategyPayload row, none⟩ := by
  intro it hit
  unfold search_strategy_memory at hit
  have hit2 := mem_sortBySimilarityDesc.mp (List.take_subset _ _ hit)
  rcases List.mem_map.mp hit2 with ⟨row, hrow, heq⟩
  exact ⟨row, hrow, heq.symm⟩

/-- The three returned candidate lists, definitionally. -/
theorem retrieve_lists_eq (sim : List ℚ → List ℚ → ℚ) (plans : RerankPlans)
    (case_rows : List CaseRow) (past_index : List PastIndexEntry)
    (strategy_rows : List StrategyRow) (case_id : String) (query_date : DateVal)
    (qc qcity : Scalar) (qe : List ℚ) (top_k : Option ℕ) (rag_top_k : ℕ) :
    (retrieve sim plans case_rows past_index strategy_rows case_id query_date qc qcity
        qe top_k rag_top_k).clickhouse_records
      = strip_heavy_fields (rerank plans.ch
          (search_clickhouse_cases sim case_id qe (coerce_date query_date)
            (resolve_top_k top_k rag_top_k) case_rows)
          (resolve_top_k top_k rag_top_k)) ∧
    (retrieve sim plans case_rows past_index strategy_rows case_id query_date qc qcity
        qe top_k rag_top_k).past_outbreak_cases
      = strip_heavy_fields (rerank plans.past
          ((filter_past_outbreak_hits case_id (coerce_date query_date)
            (index_search sim qe
              (max (resolve_top_k top_k rag_top_k * 10) (resolve_top_k top_k rag_top_k + 8))
              past_index)
            (resolve_top_k top_k rag_top_k)).map pastItemToJson)
          (resolve_top_k top_k rag_top_k)) ∧
    (retrieve sim plans case_rows past_index strategy_rows case_id query_date qc qcity
        qe top_k rag_top_k).strategy_memory
      = strip_heavy_fields (rerank plans.strat
          (search_strategy_memory sim qe (resolve_top_k top_k rag_top_k) strategy_rows)
          (resolve_top_k top_k rag_top_k)) :=
  ⟨rfl, rfl, rfl⟩

/-- C1: no item returned by Retriever.retrieve, in any of the three
candidate lists, carries a ground-truth field (outbreak flag, true
severity, official alert date, or a ground-truth container key) or an
embedding vector, at any nesting depth. The stores are typed as the
system writes them; the prompt-update keys of stored strategy rows flow
from the meta stage output, so the hypothesis records that none of them
is itself named like a ground-truth field (the system's own writers use
only the four stage names). -/
theorem retrieve_leak_free (sim : List ℚ → List ℚ → ℚ) (plans : RerankPlans)
    (case_rows : List CaseRow) (past_index : List PastIndexEntry)
    (strategy_rows : List StrategyRow) (case_id : String) (query_date : DateVal)
    (qc qcity : Scalar) (qe : List ℚ) (top_k : Option ℕ) (rag_top_k : ℕ)
    (hwf : ∀ row ∈ strategy_rows, ∀ kv ∈ row.updated_prompts.getD [],
      leakForbiddenKey kv.1 = false) :
    (∀ it ∈ (retrieve sim plans case_rows past_index strategy_rows case_id query_date
        qc qcity qe top_k rag_top_k).clickhouse_records,
      leakFreeB (RagItem.toJson it) = true) ∧
    (∀ it ∈ (retrieve sim plans case_rows past_index strategy_rows case_id query_date
        qc qcity qe top_k rag_top_k).past_outbreak_cases,
      leakFreeB (RagItem.toJson it) = true) ∧
    (∀ it ∈ (retrieve sim plans case_rows past_index strategy_rows case_id query_date
        qc qcity qe top_k rag_top_k).strategy_memory,
      leakFreeB (RagItem.toJson it) = true) := by
  obtain ⟨h1, h2, h3⟩ := retrieve_lists_eq sim plans case_rows past_index strategy_rows
    case_id query_date qc qcity qe top_k rag_top_k
  refine ⟨?_, ?_, ?_⟩
  · rw [h1]
    apply leak_free_strip_rerank
    intro src hsrc
    rcases search_ch_mem _ _ _ _ _ _ src hsrc with ⟨row, _, heq, -, -⟩
    rw [heq]
    exact leakFree_chPayload row
  · rw [h2]
    apply leak_free_strip_rerank
    intro src hsrc
    rcases List.mem_map.mp hsrc with ⟨hit, hhit, heq⟩
    rw [← heq]
    exact leakFree_pastPayload hit.payload
  · rw [h3]
    apply leak_free_strip_rerank
    intro src hsrc
    rcases search_strategy_mem _ _ _ _ src hsrc with ⟨row, hrow, heq⟩
    rw [heq]
    exact leakFree_strategyPayload row (hwf row hrow)

/-- A concrete strategy row for the leak-free and exclusion witnesses. -/
def wStrategyRow : StrategyRow :=
  ⟨"run-1", "CASE-7", "note", some [("ingest", "keep normalization strict")],
    some ⟨4/10, 4/10, 2/10⟩, .num (7/10), []⟩

/-- Witness for the leak-free theorem: on a one-row strategy store the
single returned strategy item renders leak-free. -/
theorem retrieve_leak_free_witness :
    leakFreeB (RagItem.toJson
      ⟨"run-1" ++ "::" ++ "CASE-7", 0, stripTopLevel (strategyPayload wStrategyRow),
        none⟩) = true := by
  have happ := (retrieve_leak_free (fun _ _ => 0) ⟨none, none, none⟩ [] [] [wStrategyRow]
    "CASE-7" (.s (some 100)) .null .null [] none 3 (by decide)).2.2
  have hlist : (retrieve (fun _ _ => 0) ⟨none, none, none⟩ [] [] [wStrategyRow]
      "CASE-7" (.s (some 100)) .null .null [] none 3).strategy_memory
      = [⟨"run-1" ++ "::" ++ "CASE-7", 0, stripTopLevel (strategyPayload wStrategyRow),
          none⟩] := rfl
  exact happ _ (hlist ▸ List.mem_singleton.mpr rfl)

/-- C3 (counterexample): the strategy-memory list applies no self-match
exclusion: with a persisted strategy row written for case CASE-7 (for
example by an earlier run), retrieving for the same case id CASE-7
returns that row, whose item id and payload case_id both name the
querying case itself. -/
theorem strategy_self_match_counterexample :
    ((retrieve (fun _ _ => 0) ⟨none, none, none⟩ [] []
        [⟨"run-1", "CASE-7", "note", none, none, .null, []⟩]
        "CASE-7" (.s (some 100)) .null .null [] none 3).strategy_memory.map
          fun it => it.item_id) = ["run-1::CASE-7"] ∧
    ((retrieve (fun _ _ => 0) ⟨none, none, none⟩ [] []
        [⟨"run-1", "CASE-7", "note", none, none, .null, []⟩]
        "CASE-7" (.s (some 100)) .null .null [] none 3).strategy_memory.map
          fun it => it.payload.getStr "case_id") = [some "CASE-7"] := by
  exact ⟨rfl, rfl⟩

theorem not_future_le (current : Option ℤ) (dv : DateVal)
    (h : is_future current dv = false) :
    ∀ dq rd, current = some dq → coerce_date dv = some rd → rd ≤ dq := by
  intro dq rd hc hr
  unfold is_future at h
  rw [hc, hr] at h
  simpa using h

/-- C3 (amended): every returned clickhouse record stems from a store row
whose case id differs from the querying case and whose coercible case
date is not after the query date; every returned past-outbreak item stems
from an index entry with the same two exclusions; strategy-memory items
stem from the strategy rows with no self or date exclusion (see the
counterexample for the self-match the claim wrongly extends to them). -/
theorem retrieve_exclusions (sim : List ℚ → List ℚ → ℚ) (plans : RerankPlans)
    (case_rows : List CaseRow) (past_index : List PastIndexEntry)
    (strategy_rows : List StrategyRow) (case_id : String) (query_date : DateVal)
    (qc qcity : Scalar) (qe : List ℚ) (top_k : Option ℕ) (rag_top_k : ℕ) :
    (∀ it ∈ (retrieve sim plans case_rows past_index strategy_rows case_id query_date
        qc qcity qe top_k rag_top_k).clickhouse_records,
      ∃ row ∈ case_rows, it.item_id = row.case_id ∧ (row.case_id == case_id) = false ∧
        it.payload = stripTopLevel (chPayload row) ∧
        ∀ dq rd, coerce_date query_date = some dq →
          coerce_date row.case_date = some rd → rd ≤ dq) ∧
    (∀ it ∈ (retrieve sim plans case_rows past_index strategy_rows case_id query_date
        qc qcity qe top_k rag_top_k).past_outbreak_cases,
      ∃ e ∈ past_index, it.item_id = e.item_id ∧ (e.case_id == case_id) = false ∧
        it.payload = stripTopLevel (pastPayload e) ∧
        ∀ dq rd, coerce_date query_date = some dq →
          coerce_date e.date = some rd → rd ≤ dq) ∧
    (∀ it ∈ (retrieve sim plans case_rows past_index strategy_rows case_id query_date
        qc qcity qe top_k rag_top_k).strategy_memory,
      ∃ row ∈ strategy_rows, it.item_id = row.run_id ++ "::" ++ row.case_id ∧
        it.payload = stripTopLevel (strategyPayload row)) := by
  obtain ⟨h1, h2, h3⟩ := retrieve_lists_eq sim plans case_rows past_index strategy_rows
    case_id query_date qc qcity qe top_k rag_top_k
  refine ⟨?_, ?_, ?_⟩
  · rw [h1]
    intro it hit
    rcases strip_mem _ it hit with ⟨mid, hmid, hid, _, hpay, _⟩
    rcases rerank_mem _ _ _ mid hmid with ⟨src, hsrc, hid2, _, hpay2⟩
    rcases search_ch_mem _ _ _ _ _ _ src hsrc with ⟨row, hrow, heq, hne, hfut⟩
    refine ⟨row, hrow, ?_, hne, ?_, not_future_le _ _ hfut⟩
    · rw [hid, hid2, heq]
    · rw [hpay, hpay2, heq]
  · rw [h2]
    intro it hit
    rcases strip_mem _ it hit with ⟨mid, hmid, hid, _, hpay, _⟩
    rcases rerank_mem _ _ _ mid hmid with ⟨src, hsrc, hid2, _, hpay2⟩
    rcases List.mem_map.mp hsrc with ⟨hitp, hhit, heqp⟩
    rcases filter_past_mem _ _ _ _ hitp hhit with ⟨hmem, hne, hfut⟩
    rcases index_search_mem _ _ _ _ hitp hmem with ⟨e, he, heqe⟩
    have hpe : hitp.payload = e := by rw [heqe]
    refine ⟨e, he, ?_, hpe ▸ hne, ?_, not_future_le _ _ (hpe ▸ hfut)⟩
    · rw [hid, hid2, ← heqp]
      show hitp.item_id = e.item_id
      rw [heqe]
    · rw [hpay, hpay2, ← heqp]
      show stripTopLevel (pastPayload hitp.payload) = _
      rw [hpe]
  · rw [h3]
    intro it hit
    rcases strip_mem _ it hit with ⟨mid, hmid, hid, _, hpay, _⟩
    rcases rerank_mem _ _ _ mid hmid with ⟨src, hsrc, hid2, _, hpay2⟩
    rcases search_strategy_mem _ _ _ _ src hsrc with ⟨row, hrow, heq⟩
    refine ⟨row, hrow, ?_, ?_⟩
    · rw [hid, hid2, heq]
    · rw [hpay, hpay2, heq]

/-- A concrete case row for the exclusion witness. -/
def wCaseRow : CaseRow := ⟨"OLD-1", .null, .d 5, none, []⟩

/-- Witness for the exclusion theorem on a one-row case store: the single
returned clickhouse record is the old case, not the querying case. -/
theorem retrieve_exclusions_witness :
    (⟨"OLD-1", 0, stripTopLevel (chPayload wCaseRow), none⟩ : RagItem Json).item_id
        = "OLD-1" ∧ ("OLD-1" == "Q-1") = false := by
  have happ := (retrieve_exclusions (fun _ _ => 0) ⟨none, none, none⟩ [wCaseRow] [] []
    "Q-1" (.d 10) .null .null [] none 3).1
  have hlist : (retrieve (fun _ _ => 0) ⟨none, none, none⟩ [wCaseRow] [] []
      "Q-1" (.d 10) .null .null [] none 3).clickhouse_records
      = [⟨"OLD-1", 0, stripTopLevel (chPayload wCaseRow), none⟩] := rfl
  rcases happ _ (hlist ▸ List.mem_singleton.mpr rfl) with ⟨row, hrow, hid, hne, -, -⟩
  rcases List.mem_singleton.mp hrow with rfl
  exact ⟨hid, hne⟩

end Sentinel
